import Mathlib

/-!
Verification development for the ETL windowing pipeline of `etl_keras.py`.

The source is a single class `ETL` with four operations:
* `clean_data` — a generator scanning a table left to right, producing
  batches of (input window, target scalar) pairs;
* `create_clean_datafile` — writes the batch sequence into a growable
  on-disk dataset (two arrays `x` and `y`), appending batch by batch;
* `generate_clean_data` — reads fixed-size slices back from the stored
  arrays, advancing an offset by `batch_size` each pull, with no bounds
  check;
* `zero_base_standardize` — per-window normalization `window / base - 1`.

Modelling conventions:
* a table cell is `Option ℚ`: `none` models a missing value (NaN in the
  source); rationals stand in for IEEE doubles since no claim under
  consideration concerns rounding, and division by a zero base cell (a
  documented numeric degeneracy, not claimed) is outside the model;
* the `while` loop of `clean_data` is translated with an explicit fuel
  argument; the wrapper supplies `rows.length + 1` fuel, which is an upper
  bound on the number of iterations since the loop index increases by one
  each iteration and the guard fails once it passes `rows.length`;
* the generator's `raise` on a missing target column and the writer's
  `StopIteration` on an empty batch sequence are modelled with `Except`,
  using the error names the specification gives them.
-/

deriving instance DecidableEq for Except

set_option allowUnsafeReducibility true in
attribute [semireducible] Rat.mul Rat.inv Rat.add Rat.sub Rat.div

namespace EtlKeras

/-- A table cell: `none` models a missing value (NaN). -/
abbrev Cell := Option ℚ

/-- A table row: one cell per (retained) column. -/
abbrev Row := List Cell

/-- A batch as yielded by `clean_data`: the 3-D input tensor
(list of windows, each a list of rows of rationals) and the 1-D target
tensor (one scalar per window). -/
abbrev Batch := List (List (List ℚ)) × List ℚ

/-- `row.any(isnull)` for one row. -/
def rowHasNaN (r : Row) : Bool :=
  r.any (fun c => c.isNone)

/-- `window.isnull().values.any()` from line 45 of the source: does any
cell of the window hold a missing value? -/
def windowHasNaN (w : List Row) : Bool :=
  w.any rowHasNaN

/-- Extract the numeric values of a row known to contain no missing cell
(`.values` on an accepted window); `none` cells never survive the NaN
check, so the default is irrelevant. -/
def stripRow (r : Row) : List ℚ :=
  r.map (fun c => c.getD 0)

/-- `np.average` of a list: sum divided by length. -/
def listAvg (l : List ℚ) : ℚ :=
  l.sum / (l.length : ℚ)

/-- Lines 115–119 of the source, `ETL.zero_base_standardize`: if the
supplied base is empty (the default argument is an empty frame), the base
becomes the first row of the data; the result is `data / base - 1`
elementwise with the base broadcast across rows, and the base actually
used is returned alongside. -/
def zero_base_standardize (data : List (List ℚ)) (abs_base : List ℚ) :
    List ℚ × List (List ℚ) :=
  let base := if abs_base.isEmpty then data.headD [] else abs_base
  (base, data.map (fun row => (row.zip base).map (fun p => p.1 / p.2 - 1)))

/-- Lines 49–57 of the source: the per-accepted-window computation of
`clean_data`. When `normalize` is set, the input window is standardized
against its own first row and the target window is standardized against
that same base; the target scalar is the `np.average` of column `y_col`
of the (possibly normalized) target window. Returns the (possibly
normalized) input window and the target scalar. -/
def processWindow (x_window_data y_window_data : List (List ℚ)) (y_col : ℕ)
    (normalize : Bool) : List (List ℚ) × ℚ :=
  let pair :=
    if normalize then
      let xres := zero_base_standardize x_window_data []
      let yres := zero_base_standardize y_window_data xres.1
      (xres.2, yres.2)
    else (x_window_data, y_window_data)
  (pair.1, listAvg (pair.2.map (fun r => r.getD y_col 0)))

/-- Lines 36–72 of the source: the scan loop of `ETL.clean_data`.
`i` is the loop index; `x_data`/`y_data` are the batch accumulators.
While `i + x_window_size + y_window_size ≤ num_rows`: slice the input
window `[i, i+xw)` and target window `[i+xw, i+xw+yw)`; if either
contains a missing cell, advance `i` by one and continue (skipping the
emission check, as the source's `continue` does); otherwise process the
window, append to the accumulators, advance `i` by one, and — exactly
when the advanced `i` is a multiple of `batch_size` — emit the
accumulated batch and reset the accumulators. The trailing accumulator
at loop exit is never emitted. The fuel argument only bounds recursion;
callers supply `rows.length + 1`, enough for the guard to fail first. -/
def cleanLoop (rows : List Row) (y_col x_window_size y_window_size batch_size : ℕ)
    (normalize : Bool) : ℕ → ℕ → List (List (List ℚ)) → List ℚ → List Batch
  | 0, _, _, _ => []
  | fuel + 1, i, x_data, y_data =>
    if i + x_window_size + y_window_size ≤ rows.length then
      let x_window_data := (rows.drop i).take x_window_size
      let y_window_data := (rows.drop (i + x_window_size)).take y_window_size
      if windowHasNaN x_window_data || windowHasNaN y_window_data then
        cleanLoop rows y_col x_window_size y_window_size batch_size normalize
          fuel (i + 1) x_data y_data
      else
        let p := processWindow (x_window_data.map stripRow)
          (y_window_data.map stripRow) y_col normalize
        if (i + 1) % batch_size = 0 then
          (x_data ++ [p.1], y_data ++ [p.2]) ::
            cleanLoop rows y_col x_window_size y_window_size batch_size normalize
              fuel (i + 1) [] []
        else
          cleanLoop rows y_col x_window_size y_window_size batch_size normalize
            fuel (i + 1) (x_data ++ [p.1]) (y_data ++ [p.2])
    else []

/-- The configuration fields of the `ETL` constructor that the pipeline
logic reads (the two filenames only name I/O endpoints). An empty
`filter_cols` models the falsy (`None` or `[]`) case of
`if self._filter_cols:`. -/
structure ETL where
  batch_size : ℕ
  x_window_size : ℕ
  y_window_size : ℕ
  y_col : String
  filter_cols : List String
  normalize : Bool

/-- A source table as produced by `pd.read_csv`: named, ordered columns
and rows of cells aligned with them. -/
structure Table where
  columns : List String
  rows : List Row

/-- Lines 27–31 of the source: the columns remaining after the
`filter_cols` filtering (deleting every column not in the list keeps the
listed ones in their original order). -/
def filteredColumns (t : Table) (cfg : ETL) : List String :=
  if cfg.filter_cols.isEmpty then t.columns
  else t.columns.filter (fun c => cfg.filter_cols.contains c)

/-- The rows of the table after `filter_cols` filtering: each row keeps
exactly the cells whose column name is in the list. -/
def filteredRows (t : Table) (cfg : ETL) : List Row :=
  if cfg.filter_cols.isEmpty then t.rows
  else t.rows.map (fun r =>
    ((t.columns.zip r).filter (fun p => cfg.filter_cols.contains p.1)).map Prod.snd)

/-- The error kinds of the specification. `configurationError` models
the ValueError that `list(data.columns).index(y_col)` raises when the
target column is absent; `emptyInputError` models the StopIteration that
`next` raises on an exhausted generator. -/
inductive EtlError where
  | configurationError : EtlError
  | emptyInputError : EtlError
deriving DecidableEq, Repr

/-- Lines 23–72 of the source, `ETL.clean_data`: filter the columns,
resolve the target column name to an index — failing with the
configuration error, before any batch is produced, when it is absent —
then run the scan loop from index 0 with empty accumulators. -/
def clean_data (t : Table) (cfg : ETL) : Except EtlError (List Batch) :=
  match (filteredColumns t cfg).findIdx? (fun c => c == cfg.y_col) with
  | none => .error .configurationError
  | some y_col =>
      .ok (cleanLoop (filteredRows t cfg) y_col cfg.x_window_size cfg.y_window_size
        cfg.batch_size cfg.normalize ((filteredRows t cfg).length + 1) 0 [] [])

/-- The scan loop of `clean_data` with the batching stripped and a
counter of accepted windows in its place: same guard, same window
slices, same missing-value test, same single-row advance; `cnt` counts
exactly the scan positions whose pair is appended to the accumulators. -/
def countLoop (rows : List Row) (x_window_size y_window_size : ℕ) :
    ℕ → ℕ → ℕ → ℕ
  | 0, _, cnt => cnt
  | fuel + 1, i, cnt =>
    if i + x_window_size + y_window_size ≤ rows.length then
      if windowHasNaN ((rows.drop i).take x_window_size) ||
          windowHasNaN ((rows.drop (i + x_window_size)).take y_window_size) then
        countLoop rows x_window_size y_window_size fuel (i + 1) cnt
      else
        countLoop rows x_window_size y_window_size fuel (i + 1) (cnt + 1)
    else cnt

/-- Number of windows accepted by the scan of `clean_data`. -/
def countAccepted (rows : List Row) (x_window_size y_window_size : ℕ) : ℕ :=
  countLoop rows x_window_size y_window_size (rows.length + 1) 0 0

/-- No cell of any row is missing. -/
def noMissing (rows : List Row) : Bool :=
  rows.all (fun r => r.all (fun c => c.isSome))

/-- The writer's state between appends: the two datasets and the two
running row counts `rcount_x`, `rcount_y` that lines 86–102 of the
source maintain independently. -/
structure WriterState where
  dset_x : List (List (List ℚ))
  rcount_x : ℕ
  dset_y : List ℚ
  rcount_y : ℕ
deriving DecidableEq, Repr

/-- Lines 84–91 of the source: initialize the datasets with the first
batch and start both running counts at that batch's window count. -/
def writerInit (b : Batch) : WriterState :=
  { dset_x := b.1, rcount_x := b.1.length, dset_y := b.2, rcount_y := b.2.length }

/-- Lines 93–102 of the source: one iteration of the append loop —
resize each dataset by the batch's window count, write the batch into
the newly extended region (an append, since the running count equals the
current length), and bump each running count. -/
def writerAppend (st : WriterState) (b : Batch) : WriterState :=
  { dset_x := st.dset_x ++ b.1, rcount_x := st.rcount_x + b.1.length,
    dset_y := st.dset_y ++ b.2, rcount_y := st.rcount_y + b.2.length }

/-- The writer state after the initial write and all appends. -/
def writerFinal (b : Batch) (rest : List Batch) : WriterState :=
  rest.foldl writerAppend (writerInit b)

/-- The destination file as observable after the writer runs: `absent`
when no file exists, or a container holding the `x` and `y` datasets
(`none` = dataset never created). -/
inductive FileOnDisk where
  | absent : FileOnDisk
  | container : Option (List (List (List ℚ))) → Option (List ℚ) → FileOnDisk
deriving DecidableEq, Repr

/-- Lines 75–104 of the source, `ETL.create_clean_datafile`, applied to
the batch sequence the generator yields. The destination is opened in
write mode — creating an empty container — before the first batch is
drawn; if the sequence is empty, the `next` call fails with the
empty-input error and the context manager closes the file, leaving a
valid container with no datasets. Otherwise the first batch initializes
both datasets and each later batch is appended. -/
def create_clean_datafile (batches : List Batch) : FileOnDisk × Except EtlError Unit :=
  match batches with
  | [] => (FileOnDisk.container none none, .error .emptyInputError)
  | b :: rest =>
      let fin := writerFinal b rest
      (FileOnDisk.container (some fin.dset_x) (some fin.dset_y), .ok ())

/-- Lines 106–113 of the source: the reader's offset before the `n`-th
pull — it starts at `start_index` and advances by `batch_size` on every
pull. -/
def generate_clean_data_index (batch_size start_index : ℕ) : ℕ → ℕ
  | 0 => start_index
  | n + 1 => generate_clean_data_index batch_size start_index n + batch_size

/-- Lines 110–113 of the source: the pair yielded by the `n`-th pull of
`generate_clean_data` — the slices `x[i:i+batch_size]` and
`y[i:i+batch_size]` at the current offset. Total: no bounds check is
performed and no end-of-data error can be raised. -/
def generate_clean_data_nth (x : List (List (List ℚ))) (y : List ℚ)
    (batch_size start_index n : ℕ) : List (List (List ℚ)) × List ℚ :=
  ((x.drop (generate_clean_data_index batch_size start_index n)).take batch_size,
   (y.drop (generate_clean_data_index batch_size start_index n)).take batch_size)

/-! ### Concrete fixtures used by witnesses and counterexamples -/

/-- A six-row, one-column table with no missing values. -/
def T6 : Table :=
  ⟨["close"], [[some 1], [some 2], [some 3], [some 4], [some 5], [some 6]]⟩

/-- Configuration for `T6`: windows of two rows predicting the next row,
batches of two windows, no filtering, no normalization. -/
def cfg6 : ETL :=
  { batch_size := 2, x_window_size := 2, y_window_size := 1,
    y_col := "close", filter_cols := [], normalize := false }

/-- A nine-row, one-column table whose third row is missing. -/
def T9 : Table :=
  ⟨["close"], [[some 1], [some 2], [none], [some 4], [some 5], [some 6],
    [some 7], [some 8], [some 9]]⟩

/-- Configuration for `T9`: same window and batch sizes as `cfg6`. -/
def cfg9 : ETL :=
  { batch_size := 2, x_window_size := 2, y_window_size := 1,
    y_col := "close", filter_cols := [], normalize := false }

/-! ### Arithmetic helpers for the batch-boundary accounting -/

/-- Stepping the scan index either completes a residue class modulo
`batch_size` (the emission case) or increments the residue. -/
lemma succ_mod_cases (i bs : ℕ) (hbs : 0 < bs) :
    ((i + 1) % bs = 0 ∧ i % bs + 1 = bs) ∨ ((i + 1) % bs = i % bs + 1) := by
  rcases Nat.lt_or_ge (i % bs + 1) bs with hlt | hge
  · right
    conv_lhs => rw [← Nat.div_add_mod i bs]
    rw [Nat.add_assoc, Nat.mul_add_mod, Nat.mod_eq_of_lt hlt]
  · left
    have heq : i % bs + 1 = bs :=
      Nat.le_antisymm (Nat.succ_le_of_lt (Nat.mod_lt i hbs)) hge
    refine ⟨?_, heq⟩
    conv_lhs => rw [← Nat.div_add_mod i bs]
    rw [Nat.add_assoc, heq, ← Nat.mul_succ, Nat.mul_mod_right]

lemma succ_mod_eq_zero_full (i bs : ℕ) (hbs : 0 < bs)
    (h : (i + 1) % bs = 0) : i % bs + 1 = bs := by
  rcases succ_mod_cases i bs hbs with ⟨_, hfull⟩ | hstep
  · exact hfull
  · rw [h] at hstep; omega

lemma succ_mod_eq_succ (i bs : ℕ) (hbs : 0 < bs)
    (h : (i + 1) % bs ≠ 0) : (i + 1) % bs = i % bs + 1 := by
  rcases succ_mod_cases i bs hbs with ⟨hz, _⟩ | hstep
  · exact absurd hz h
  · exact hstep

lemma succ_div_of_mod_eq_zero (i bs : ℕ) (h : (i + 1) % bs = 0) :
    (i + 1) / bs = i / bs + 1 :=
  Nat.succ_div_of_dvd (Nat.dvd_of_mod_eq_zero h)

lemma succ_div_of_mod_ne_zero (i bs : ℕ) (h : (i + 1) % bs ≠ 0) :
    (i + 1) / bs = i / bs :=
  Nat.succ_div_of_not_dvd (fun hd => h (Nat.mod_eq_zero_of_dvd hd))

/-! ### The scan on tables with no missing values -/

/-- Every window sliced from a table with no missing values passes the
missing-value test. -/
lemma windowHasNaN_eq_false {rows : List Row} (h : noMissing rows = true)
    (k m : ℕ) : windowHasNaN ((rows.drop k).take m) = false := by
  simp only [noMissing, List.all_eq_true] at h
  simp only [windowHasNaN, rowHasNaN, List.any_eq_false]
  intro r hr hany
  obtain ⟨c, hc, hcn⟩ := List.any_eq_true.1 hany
  have hrr : r ∈ rows := List.mem_of_mem_drop (List.mem_of_mem_take hr)
  have := h r hrr c hc
  cases c with
  | none => simp at this
  | some q => simp at hcn

/-- On a table with no missing values the counting loop accepts one
window per remaining scan position. -/
lemma countLoop_noMissing (rows : List Row) (xw yw : ℕ)
    (hmiss : noMissing rows = true) :
    ∀ fuel i cnt, rows.length + 1 ≤ fuel + i →
      countLoop rows xw yw fuel i cnt = cnt + (rows.length + 1 - xw - yw - i) := by
  intro fuel
  induction fuel with
  | zero =>
    intro i cnt hfuel
    have hz : rows.length + 1 - xw - yw - i = 0 := by omega
    simp [countLoop, hz]
  | succ fuel ih =>
    intro i cnt hfuel
    by_cases hg : i + xw + yw ≤ rows.length
    · have hxw := windowHasNaN_eq_false hmiss i xw
      have hyw := windowHasNaN_eq_false hmiss (i + xw) yw
      simp only [countLoop, if_pos hg, hxw, hyw, Bool.or_self, Bool.false_eq_true,
        if_false]
      rw [ih (i + 1) (cnt + 1) (by omega)]
      omega
    · simp only [countLoop, if_neg hg]
      omega

/-- On a table with no missing values, the scan of `clean_data` accepts
exactly `num_rows + 1 - x_window_size - y_window_size` windows
(truncated at zero). -/
lemma countAccepted_noMissing (rows : List Row) (xw yw : ℕ)
    (hmiss : noMissing rows = true) :
    countAccepted rows xw yw = rows.length + 1 - xw - yw := by
  rw [countAccepted, countLoop_noMissing rows xw yw hmiss _ 0 0 (by omega)]
  omega

/-- Characterization of the scan loop on a table with no missing
values: starting at index `i` with accumulators holding `i % batch_size`
windows (the loop invariant), every emitted batch holds exactly
`batch_size` windows and the number of emitted batches is the number of
multiples of `batch_size` crossed by the scan index — so the trailing
partial accumulator is never emitted. -/
lemma cleanLoop_noMissing (rows : List Row) (y_col xw yw bs : ℕ) (nm : Bool)
    (hmiss : noMissing rows = true) (hbs : 0 < bs) :
    ∀ fuel i x_data y_data, rows.length + 1 ≤ fuel + i →
      x_data.length = i % bs → y_data.length = i % bs →
      (∀ b ∈ cleanLoop rows y_col xw yw bs nm fuel i x_data y_data,
          b.1.length = bs ∧ b.2.length = bs) ∧
      (cleanLoop rows y_col xw yw bs nm fuel i x_data y_data).length
        = max (rows.length + 1 - xw - yw) i / bs - i / bs := by
  intro fuel
  induction fuel with
  | zero =>
    intro i xd yd hfuel hx hy
    have hmax : max (rows.length + 1 - xw - yw) i = i := Nat.max_eq_right (by omega)
    simp [cleanLoop, hmax]
  | succ fuel ih =>
    intro i xd yd hfuel hx hy
    by_cases hg : i + xw + yw ≤ rows.length
    · have hxw := windowHasNaN_eq_false hmiss i xw
      have hyw := windowHasNaN_eq_false hmiss (i + xw) yw
      have hiE : i + 1 ≤ rows.length + 1 - xw - yw := by omega
      have hmax1 : max (rows.length + 1 - xw - yw) i = rows.length + 1 - xw - yw :=
        Nat.max_eq_left (by omega)
      have hmax2 : max (rows.length + 1 - xw - yw) (i + 1)
          = rows.length + 1 - xw - yw := Nat.max_eq_left hiE
      have hdivle : (i + 1) / bs ≤ (rows.length + 1 - xw - yw) / bs :=
        Nat.div_le_div_right hiE
      simp only [cleanLoop, if_pos hg, hxw, hyw, Bool.or_self, Bool.false_eq_true,
        if_false]
      generalize processWindow (((rows.drop i).take xw).map stripRow)
        (((rows.drop (i + xw)).take yw).map stripRow) y_col nm = p
      by_cases hmod : (i + 1) % bs = 0
      · rw [if_pos hmod]
        obtain ⟨ihall, ihlen⟩ :=
          ih (i + 1) [] [] (by omega) (by simp [hmod]) (by simp [hmod])
        have hfull := succ_mod_eq_zero_full i bs hbs hmod
        constructor
        · intro b hb
          rcases List.mem_cons.1 hb with rfl | hb
          · constructor
            · simp only [List.length_append, List.length_cons, List.length_nil, hx]
              omega
            · simp only [List.length_append, List.length_cons, List.length_nil, hy]
              omega
          · exact ihall b hb
        · rw [List.length_cons, ihlen, hmax1, hmax2]
          rw [succ_div_of_mod_eq_zero i bs hmod] at hdivle ⊢
          omega
      · rw [if_neg hmod]
        have hstep := succ_mod_eq_succ i bs hbs hmod
        obtain ⟨ihall, ihlen⟩ := ih (i + 1) (xd ++ [p.1]) (yd ++ [p.2]) (by omega)
          (by simp only [List.length_append, List.length_cons, List.length_nil, hx,
            hstep])
          (by simp only [List.length_append, List.length_cons, List.length_nil, hy,
            hstep])
        refine ⟨ihall, ?_⟩
        rw [ihlen, hmax1, hmax2, succ_div_of_mod_ne_zero i bs hmod]
    · have hmax : max (rows.length + 1 - xw - yw) i = i := Nat.max_eq_right (by omega)
      simp [cleanLoop, if_neg hg, hmax]

/-- Every batch the scan emits pairs as many input windows as target
scalars: the accumulators are extended together and emitted together. -/
lemma cleanLoop_component_lengths (rows : List Row) (y_col xw yw bs : ℕ)
    (nm : Bool) :
    ∀ fuel i x_data y_data, x_data.length = y_data.length →
      ∀ b ∈ cleanLoop rows y_col xw yw bs nm fuel i x_data y_data,
        b.1.length = b.2.length := by
  intro fuel
  induction fuel with
  | zero => intro i xd yd hxy b hb; simp [cleanLoop] at hb
  | succ fuel ih =>
    intro i xd yd hxy b hb
    by_cases hg : i + xw + yw ≤ rows.length
    · by_cases hnan : (windowHasNaN ((rows.drop i).take xw)
          || windowHasNaN ((rows.drop (i + xw)).take yw)) = true
      · simp only [cleanLoop, if_pos hg, if_pos hnan] at hb
        exact ih (i + 1) xd yd hxy b hb
      · simp only [cleanLoop, if_pos hg, if_neg hnan] at hb
        generalize processWindow (((rows.drop i).take xw).map stripRow)
          (((rows.drop (i + xw)).take yw).map stripRow) y_col nm = p at hb
        by_cases hmod : (i + 1) % bs = 0
        · rw [if_pos hmod] at hb
          rcases List.mem_cons.1 hb with rfl | hb
          · simp [hxy]
          · exact ih (i + 1) [] [] rfl b hb
        · rw [if_neg hmod] at hb
          exact ih (i + 1) (xd ++ [p.1]) (yd ++ [p.2]) (by simp [hxy]) b hb
    · simp only [cleanLoop, if_neg hg] at hb
      exact absurd hb (List.not_mem_nil b)

/-- Column filtering keeps a subset of each row's cells, so it preserves
the absence of missing values. -/
lemma noMissing_filteredRows (t : Table) (cfg : ETL)
    (h : noMissing t.rows = true) : noMissing (filteredRows t cfg) = true := by
  unfold filteredRows
  split_ifs with hf
  · exact h
  · simp only [noMissing, List.all_eq_true] at h ⊢
    intro r hr
    rcases List.mem_map.1 hr with ⟨r0, hr0, rfl⟩
    intro c hc
    rcases List.mem_map.1 hc with ⟨p, hp, rfl⟩
    obtain ⟨a, b⟩ := p
    have hmem := (List.mem_filter.1 hp).1
    exact h r0 hr0 b (List.of_mem_zip hmem).2

/-! ### Claim theorems -/

/-- C2: for every table containing no missing values, the number of
windows accepted by the generator's scan equals
`num_rows - x_window_size - y_window_size + 1` when
`x_window_size + y_window_size ≤ num_rows`, and 0 otherwise. -/
theorem accepted_window_count (rows : List Row) (xw yw : ℕ)
    (hmiss : noMissing rows = true) :
    countAccepted rows xw yw =
      if xw + yw ≤ rows.length then rows.length - xw - yw + 1 else 0 := by
  rw [countAccepted_noMissing rows xw yw hmiss]
  split_ifs with h <;> omega

theorem accepted_window_count_witness :
    noMissing T6.rows = true ∧ countAccepted T6.rows 2 1 = 4 :=
  ⟨by decide, (accepted_window_count T6.rows 2 1 (by decide)).trans (by decide)⟩

/-- C4: at a scan position whose input or target window contains a
missing cell, the loop accumulates nothing, emits nothing, and advances
the scan index by exactly one row — the accumulators and the rest of the
scan are exactly those of the loop restarted one row further along. -/
theorem nan_window_single_advance (rows : List Row) (y_col xw yw bs : ℕ)
    (nm : Bool) (fuel i : ℕ) (x_data : List (List (List ℚ))) (y_data : List ℚ)
    (hg : i + xw + yw ≤ rows.length)
    (hnan : (windowHasNaN ((rows.drop i).take xw)
        || windowHasNaN ((rows.drop (i + xw)).take yw)) = true) :
    cleanLoop rows y_col xw yw bs nm (fuel + 1) i x_data y_data
      = cleanLoop rows y_col xw yw bs nm fuel (i + 1) x_data y_data := by
  simp only [cleanLoop, if_pos hg, if_pos hnan]

theorem nan_window_single_advance_witness :
    ((0 : ℕ) + 1 + 1 ≤ ([[some 1], [none], [some 3]] : List Row).length)
    ∧ (windowHasNaN ((([[some 1], [none], [some 3]] : List Row).drop 0).take 1)
        || windowHasNaN ((([[some 1], [none], [some 3]] : List Row).drop
            (0 + 1)).take 1)) = true
    ∧ cleanLoop [[some 1], [none], [some 3]] 0 1 1 2 false 4 0 [] []
        = cleanLoop [[some 1], [none], [some 3]] 0 1 1 2 false 3 1 [] [] :=
  ⟨by decide, by decide,
    nan_window_single_advance [[some 1], [none], [some 3]] 0 1 1 2 false 3 0 [] []
      (by decide) (by decide)⟩

/-- C1 (counterexample): on `T9` — whose third row is missing — with
`batch_size = 2`, the generator emits a first batch containing a single
accepted window: the emission test is on the scan index (which also
counts rejected positions), not on the count of accepted windows, so an
emitted batch need not contain `batch_size` pairs. -/
theorem clean_data_partial_batch_cex :
    cfg9.batch_size = 2
    ∧ clean_data T9 cfg9
        = .ok [([[[4], [5]]], [6]), ([[[5], [6]], [[6], [7]]], [7, 8])]
    ∧ (clean_data T9 cfg9).toOption.map (List.map (fun b => b.1.length))
        = some [1, 2] :=
  ⟨rfl, by decide, by decide⟩

/-- C1 (amended): a batch is emitted exactly when the scan index — which
counts rejected as well as accepted positions — reaches a multiple of
`batch_size` just after an acceptance; consequently, on a table with no
missing values every emitted batch contains exactly `batch_size`
accepted pairs, the number of emitted batches is the accepted-window
count divided (flooring) by `batch_size`, and the trailing partial group
of accepted windows is never emitted. -/
theorem clean_data_batch_accounting (t : Table) (cfg : ETL) (out : List Batch)
    (hmiss : noMissing t.rows = true) (hbs : 0 < cfg.batch_size)
    (hok : clean_data t cfg = .ok out) :
    out.all (fun b => b.1.length == cfg.batch_size
      && b.2.length == cfg.batch_size) = true
    ∧ out.length = countAccepted (filteredRows t cfg) cfg.x_window_size
        cfg.y_window_size / cfg.batch_size := by
  have hm := noMissing_filteredRows t cfg hmiss
  unfold clean_data at hok
  cases hfind : (filteredColumns t cfg).findIdx? (fun c => c == cfg.y_col) with
  | none => rw [hfind] at hok; exact absurd hok (by simp)
  | some yc =>
    rw [hfind] at hok
    injection hok with hok
    subst hok
    obtain ⟨hall, hlen⟩ := cleanLoop_noMissing (filteredRows t cfg) yc
      cfg.x_window_size cfg.y_window_size cfg.batch_size cfg.normalize hm hbs
      ((filteredRows t cfg).length + 1) 0 [] [] (by omega) (by simp) (by simp)
    constructor
    · rw [List.all_eq_true]
      intro b hb
      obtain ⟨h1, h2⟩ := hall b hb
      simp [h1, h2]
    · rw [hlen, countAccepted_noMissing _ _ _ hm]
      simp

/-- The batch list emitted by `clean_data` on `T6`. -/
def out6 : List Batch :=
  [([[[1], [2]], [[2], [3]]], [3, 4]), ([[[3], [4]], [[4], [5]]], [5, 6])]

theorem clean_data_batch_accounting_witness :
    noMissing T6.rows = true ∧ 0 < cfg6.batch_size
    ∧ clean_data T6 cfg6 = .ok out6
    ∧ (out6.all (fun b => b.1.length == cfg6.batch_size
          && b.2.length == cfg6.batch_size) = true
        ∧ out6.length = countAccepted (filteredRows T6 cfg6) cfg6.x_window_size
            cfg6.y_window_size / cfg6.batch_size) :=
  ⟨by decide, by decide, by decide,
    clean_data_batch_accounting T6 cfg6 out6 (by decide) (by decide) (by decide)⟩

/-- Normalizing a row against a base and then projecting a column is the
same as projecting the column of row and base and normalizing the two
scalars. -/
lemma zipped_getD (r base : List ℚ) (k : ℕ) (hr : r.length = base.length)
    (hk : k < base.length) :
    ((r.zip base).map (fun p => p.1 / p.2 - 1)).getD k 0
      = r.getD k 0 / base.getD k 0 - 1 := by
  have hzlen : (r.zip base).length = base.length := by
    rw [List.length_zip, hr, Nat.min_self]
  have h1 : k < ((r.zip base).map (fun p => p.1 / p.2 - 1)).length := by
    rw [List.length_map, hzlen]; exact hk
  have h2 : k < r.length := by omega
  rw [List.getD_eq_getElem _ _ h1, List.getD_eq_getElem _ _ h2,
    List.getD_eq_getElem _ _ hk, List.getElem_map, List.getElem_zip]

/-- C3: the target scalar computed for an accepted window is the
arithmetic mean of the `y_col` values of the target window; with
normalization enabled it is the mean of the target-window values
normalized against the base taken from the first row of the input window
(not the target window's own first row). -/
theorem target_scalar_is_mean (x_window y_window : List (List ℚ)) (y_col : ℕ)
    (hx : x_window ≠ [])
    (hlen : y_window.all (fun r => r.length == (x_window.headD []).length) = true)
    (hy : y_col < (x_window.headD []).length) :
    (processWindow x_window y_window y_col false).2
      = listAvg (y_window.map (fun r => r.getD y_col 0))
    ∧ (processWindow x_window y_window y_col true).2
      = listAvg (y_window.map (fun r =>
          r.getD y_col 0 / (x_window.headD []).getD y_col 0 - 1)) := by
  constructor
  · rfl
  · have hbase_ne : x_window.headD [] ≠ [] := by
      intro h; rw [h] at hy; simp at hy
    have hie : (x_window.headD []).isEmpty = false := by
      cases hxh : x_window.headD [] with
      | nil => exact absurd hxh hbase_ne
      | cons a l => rfl
    simp only [processWindow, zero_base_standardize, List.isEmpty_nil, if_true,
      hie, Bool.false_eq_true, if_false, eq_self_iff_true, List.map_map]
    refine congrArg listAvg (List.map_congr_left ?_)
    intro r hr
    rw [List.all_eq_true] at hlen
    have hrlen : r.length = (x_window.headD []).length := by
      have := hlen r hr
      rwa [beq_iff_eq] at this
    exact zipped_getD r (x_window.headD []) y_col hrlen hy

theorem target_scalar_is_mean_witness :
    ([[1], [2]] : List (List ℚ)) ≠ []
    ∧ ([[4]] : List (List ℚ)).all
        (fun r => r.length == (([[1], [2]] : List (List ℚ)).headD []).length) = true
    ∧ 0 < (([[1], [2]] : List (List ℚ)).headD []).length
    ∧ ((processWindow [[1], [2]] [[4]] 0 false).2
        = listAvg (([[4]] : List (List ℚ)).map (fun r => r.getD 0 0))
      ∧ (processWindow [[1], [2]] [[4]] 0 true).2
        = listAvg (([[4]] : List (List ℚ)).map (fun r =>
            r.getD 0 0 / (([[1], [2]] : List (List ℚ)).headD []).getD 0 0 - 1))) :=
  ⟨by decide, by decide, by decide,
    target_scalar_is_mean [[1], [2]] [[4]] 0 (by decide) (by decide) (by decide)⟩

/-- C10: `zero_base_standardize` recomputes the base from the first row
of the window whenever the supplied base is empty — exactly what the
defaulted call does, so an empty base can never be forced — and uses a
non-empty supplied base unchanged, returning it alongside. -/
theorem zero_base_default_and_explicit (data : List (List ℚ))
    (abs_base : List ℚ) :
    zero_base_standardize data []
      = (data.headD [], data.map (fun row =>
          (row.zip (data.headD [])).map (fun p => p.1 / p.2 - 1)))
    ∧ (abs_base ≠ [] →
        zero_base_standardize data abs_base
          = (abs_base, data.map (fun row =>
              (row.zip abs_base).map (fun p => p.1 / p.2 - 1)))) := by
  constructor
  · rfl
  · intro h
    have hie : abs_base.isEmpty = false := by
      cases abs_base with
      | nil => exact absurd rfl h
      | cons a l => rfl
    simp only [zero_base_standardize, hie, Bool.false_eq_true, if_false]

theorem zero_base_default_and_explicit_witness :
    ([1, 2] : List ℚ) ≠ []
    ∧ zero_base_standardize [[2, 4]] [1, 2] = ([1, 2], [[1, 1]]) :=
  ⟨by decide, ((zero_base_default_and_explicit [[2, 4]] [1, 2]).2
    (by decide)).trans (by decide)⟩

/-- C7: when the configured target column is not among the columns left
after filtering, `clean_data` fails with the configuration error and
produces no batch. -/
theorem missing_ycol_configuration_error (t : Table) (cfg : ETL)
    (h : cfg.y_col ∉ filteredColumns t cfg) :
    clean_data t cfg = .error .configurationError := by
  unfold clean_data
  have hfind : (filteredColumns t cfg).findIdx? (fun c => c == cfg.y_col)
      = none := by
    rw [List.findIdx?_eq_none_iff]
    intro c hc
    cases hb : c == cfg.y_col with
    | false => rfl
    | true =>
      rw [beq_iff_eq] at hb
      exact absurd (hb ▸ hc) h
  rw [hfind]

/-- A two-column table used by the C7 witness. -/
def T7 : Table := ⟨["time", "close"], [[some 1, some 2]]⟩

/-- Configuration whose filtering drops the target column. -/
def cfg7 : ETL :=
  { batch_size := 2, x_window_size := 1, y_window_size := 1,
    y_col := "close", filter_cols := ["time"], normalize := false }

theorem missing_ycol_configuration_error_witness :
    cfg7.y_col ∉ filteredColumns T7 cfg7
    ∧ clean_data T7 cfg7 = .error .configurationError :=
  ⟨by decide, missing_ycol_configuration_error T7 cfg7 (by decide)⟩

/-- The reader's offset before the `n`-th pull in closed form. -/
lemma generate_clean_data_index_eq (bs start n : ℕ) :
    generate_clean_data_index bs start n = start + n * bs := by
  induction n with
  | zero => simp [generate_clean_data_index]
  | succ n ih => rw [generate_clean_data_index, ih]; ring

/-- C6: the `n`-th pull of the reader returns the slices
`[start + n*batch_size, start + (n+1)*batch_size)` of the stored `x` and
`y` arrays, the offset having advanced by `batch_size` on each pull; the
slices are short or empty once the offset passes the stored length, and
the read is total — no end-of-data error exists to be raised. -/
theorem reader_slice_semantics (x : List (List (List ℚ))) (y : List ℚ)
    (bs start n : ℕ) :
    generate_clean_data_index bs start n = start + n * bs
    ∧ generate_clean_data_nth x y bs start n
        = ((x.drop (start + n * bs)).take bs, (y.drop (start + n * bs)).take bs)
    ∧ (generate_clean_data_nth x y bs start n).1.length
        = min bs (x.length - (start + n * bs))
    ∧ (generate_clean_data_nth x y bs start n).2.length
        = min bs (y.length - (start + n * bs))
    ∧ (x.length ≤ start + n * bs → (generate_clean_data_nth x y bs start n).1 = [])
    ∧ (y.length ≤ start + n * bs →
        (generate_clean_data_nth x y bs start n).2 = []) := by
  have hidx := generate_clean_data_index_eq bs start n
  unfold generate_clean_data_nth
  rw [hidx]
  refine ⟨rfl, rfl, ?_, ?_, ?_, ?_⟩
  · simp [List.length_take, List.length_drop]
  · simp [List.length_take, List.length_drop]
  · intro h
    rw [List.drop_eq_nil_of_le h, List.take_nil]
  · intro h
    rw [List.drop_eq_nil_of_le h, List.take_nil]

theorem reader_slice_semantics_witness :
    ([[[1]]] : List (List (List ℚ))).length ≤ 0 + 1 * 2
    ∧ (generate_clean_data_nth [[[1]]] [5] 2 0 1).1 = [] :=
  ⟨by decide, (reader_slice_semantics [[[1]]] [5] 2 0 1).2.2.2.2.1 (by decide)⟩

/-- The writer's datasets after all appends are the concatenation of the
batches' components in order. -/
lemma foldl_writerAppend_datasets (l : List Batch) :
    ∀ st : WriterState,
      (l.foldl writerAppend st).dset_x = st.dset_x ++ (l.map Prod.fst).flatten
      ∧ (l.foldl writerAppend st).dset_y
          = st.dset_y ++ (l.map Prod.snd).flatten := by
  induction l with
  | nil => intro st; simp
  | cons b l ih =>
    intro st
    obtain ⟨ihx, ihy⟩ := ih (writerAppend st b)
    constructor
    · rw [List.foldl_cons, ihx]
      simp [writerAppend, List.append_assoc]
    · rw [List.foldl_cons, ihy]
      simp [writerAppend, List.append_assoc]

/-- Slicing a concatenation of equal-length chunks at chunk-aligned
offsets recovers the chunks. -/
lemma flatten_slice {α : Type} (bs : ℕ) :
    ∀ L : List (List α), (∀ l ∈ L, l.length = bs) →
      ∀ n, n < L.length → (L.flatten.drop (n * bs)).take bs = L.getD n [] := by
  intro L
  induction L with
  | nil => intro _ n hn; simp at hn
  | cons l L ih =>
    intro huni n hn
    have hl : l.length = bs := huni l (List.mem_cons_self l L)
    subst hl
    cases n with
    | zero =>
      rw [List.getD_cons_zero, Nat.zero_mul, List.drop_zero, List.flatten_cons,
        List.take_append_eq_append_take, List.take_length, Nat.sub_self,
        List.take_zero, List.append_nil]
    | succ n =>
      rw [List.getD_cons_succ, List.flatten_cons, Nat.succ_mul,
        List.drop_append_eq_append_drop,
        List.drop_eq_nil_of_le (Nat.le_add_left l.length (n * l.length)),
        List.nil_append, Nat.add_sub_cancel]
      exact ih (fun l' hl' => huni l' (List.mem_cons_of_mem _ hl')) n
        (Nat.lt_of_succ_lt_succ hn)

/-- C5 (amended): when every batch drawn from the generator holds
exactly `batch_size` windows — as on a table with no missing values —
writing the batches and reading back from offset 0 with the same
`batch_size` reproduces every batch exactly, in order. -/
theorem writer_reader_roundtrip (t : Table) (cfg : ETL) (b : Batch)
    (rest : List Batch) (n : ℕ)
    (hok : clean_data t cfg = .ok (b :: rest))
    (huni : (b :: rest).all (fun bb => bb.1.length == cfg.batch_size
        && bb.2.length == cfg.batch_size) = true)
    (hn : n < (b :: rest).length) :
    generate_clean_data_nth (writerFinal b rest).dset_x
        (writerFinal b rest).dset_y cfg.batch_size 0 n
      = (b :: rest).getD n ([], []) := by
  rw [List.all_eq_true] at huni
  have hxlen : ∀ l ∈ (b :: rest).map Prod.fst, l.length = cfg.batch_size := by
    intro l hl
    rcases List.mem_map.1 hl with ⟨bb, hbb, rfl⟩
    have := huni bb hbb
    rw [Bool.and_eq_true, beq_iff_eq, beq_iff_eq] at this
    exact this.1
  have hylen : ∀ l ∈ (b :: rest).map Prod.snd, l.length = cfg.batch_size := by
    intro l hl
    rcases List.mem_map.1 hl with ⟨bb, hbb, rfl⟩
    have := huni bb hbb
    rw [Bool.and_eq_true, beq_iff_eq, beq_iff_eq] at this
    exact this.2
  obtain ⟨h1, h2⟩ := foldl_writerAppend_datasets rest (writerInit b)
  have hX : (writerFinal b rest).dset_x = ((b :: rest).map Prod.fst).flatten := by
    rw [writerFinal, h1]
    simp [writerInit]
  have hY : (writerFinal b rest).dset_y = ((b :: rest).map Prod.snd).flatten := by
    rw [writerFinal, h2]
    simp [writerInit]
  have hnx : n < ((b :: rest).map Prod.fst).length := by simpa using hn
  have hny : n < ((b :: rest).map Prod.snd).length := by simpa using hn
  unfold generate_clean_data_nth
  rw [generate_clean_data_index_eq, Nat.zero_add, hX, hY,
    flatten_slice cfg.batch_size _ hxlen n hnx,
    flatten_slice cfg.batch_size _ hylen n hny,
    List.getD_eq_getElem _ _ hnx, List.getD_eq_getElem _ _ hny,
    List.getD_eq_getElem _ _ hn, List.getElem_map, List.getElem_map]

theorem writer_reader_roundtrip_witness :
    clean_data T6 cfg6 = .ok (([[[1], [2]], [[2], [3]]], [3, 4])
        :: [([[[3], [4]], [[4], [5]]], [5, 6])])
    ∧ ((([[[1], [2]], [[2], [3]]], [3, 4])
        :: [([[[3], [4]], [[4], [5]]], [5, 6])]) : List Batch).all
        (fun bb => bb.1.length == cfg6.batch_size
          && bb.2.length == cfg6.batch_size) = true
    ∧ 1 < ((([[[1], [2]], [[2], [3]]], [3, 4])
        :: [([[[3], [4]], [[4], [5]]], [5, 6])]) : List Batch).length
    ∧ generate_clean_data_nth
        (writerFinal ([[[1], [2]], [[2], [3]]], [3, 4])
          [([[[3], [4]], [[4], [5]]], [5, 6])]).dset_x
        (writerFinal ([[[1], [2]], [[2], [3]]], [3, 4])
          [([[[3], [4]], [[4], [5]]], [5, 6])]).dset_y cfg6.batch_size 0 1
      = ((([[[1], [2]], [[2], [3]]], [3, 4])
          :: [([[[3], [4]], [[4], [5]]], [5, 6])]) : List Batch).getD 1 ([], []) :=
  ⟨by decide, by decide, by decide,
    writer_reader_roundtrip T6 cfg6 ([[[1], [2]], [[2], [3]]], [3, 4])
      [([[[3], [4]], [[4], [5]]], [5, 6])] 1 (by decide) (by decide) (by decide)⟩

/-- C5 (counterexample): on `T9` the generator emits a first batch of one
window followed by a batch of two; writing them stores three windows, and
re-reading slice 0 with `batch_size = 2` returns the first two stored
windows — not the first emitted batch. -/
theorem writer_reader_roundtrip_cex :
    clean_data T9 cfg9 = .ok (([[[4], [5]]], [6])
        :: [([[[5], [6]], [[6], [7]]], [7, 8])])
    ∧ generate_clean_data_nth
        (writerFinal ([[[4], [5]]], [6])
          [([[[5], [6]], [[6], [7]]], [7, 8])]).dset_x
        (writerFinal ([[[4], [5]]], [6])
          [([[[5], [6]], [[6], [7]]], [7, 8])]).dset_y cfg9.batch_size 0 0
      ≠ ((([[[4], [5]]], [6])
          :: [([[[5], [6]], [[6], [7]]], [7, 8])]) : List Batch).getD 0 ([], []) :=
  ⟨by decide, by decide⟩

/-- C8 (counterexample): on an empty batch sequence the writer does fail
with the empty-input error, but it has already created the destination
file — opened in write mode before the first batch is drawn — so an
empty container is left behind rather than no file. -/
theorem empty_writer_creates_file_cex :
    (create_clean_datafile []).2 = Except.error EtlError.emptyInputError
    ∧ (create_clean_datafile []).1 ≠ FileOnDisk.absent :=
  ⟨rfl, by decide⟩

/-- C8 (amended): a writer invoked on a generator yielding zero batches
fails with the empty-input error surfaced to the caller; the destination
file, created before the first batch is drawn, remains as a valid empty
container with no `x`/`y` datasets. -/
theorem empty_writer_empty_input_error :
    create_clean_datafile []
      = (FileOnDisk.container none none, Except.error EtlError.emptyInputError) :=
  rfl

/-- The writer states after the initial write and after every append all
carry equal running counts, provided every appended batch pairs as many
input windows as targets. -/
lemma scanl_writerAppend_counts (l : List Batch) :
    ∀ st : WriterState, st.rcount_x = st.rcount_y →
      (∀ bb ∈ l, bb.1.length = bb.2.length) →
      (List.scanl writerAppend st l).all
        (fun s => s.rcount_x == s.rcount_y) = true := by
  induction l with
  | nil =>
    intro st hst _
    simp [List.scanl_nil, hst]
  | cons b l ih =>
    intro st hst hl
    have hb := hl b (List.mem_cons_self b l)
    rw [List.scanl_cons, List.singleton_append]
    rw [List.all_cons, Bool.and_eq_true, beq_iff_eq]
    refine ⟨hst, ih (writerAppend st b) ?_ (fun bb h => hl bb (List.mem_cons_of_mem _ h))⟩
    simp [writerAppend, hst, hb]

/-- C9: after the initial write of the first batch and after every
subsequent append, the running row count of the `x` dataset equals the
running row count of the `y` dataset. -/
theorem writer_running_counts_equal (t : Table) (cfg : ETL) (b : Batch)
    (rest : List Batch) (hok : clean_data t cfg = .ok (b :: rest)) :
    (List.scanl writerAppend (writerInit b) rest).all
      (fun st => st.rcount_x == st.rcount_y) = true := by
  have hall : ∀ bb ∈ b :: rest, bb.1.length = bb.2.length := by
    unfold clean_data at hok
    cases hfind : (filteredColumns t cfg).findIdx? (fun c => c == cfg.y_col) with
    | none => rw [hfind] at hok; exact absurd hok (by simp)
    | some yc =>
      rw [hfind] at hok
      injection hok with hok
      intro bb hbb
      rw [← hok] at hbb
      exact cleanLoop_component_lengths (filteredRows t cfg) yc cfg.x_window_size
        cfg.y_window_size cfg.batch_size cfg.normalize
        ((filteredRows t cfg).length + 1) 0 [] [] rfl bb hbb
  refine scanl_writerAppend_counts rest (writerInit b) ?_
    (fun bb h => hall bb (List.mem_cons_of_mem _ h))
  simp [writerInit, hall b (List.mem_cons_self b rest)]

theorem writer_running_counts_equal_witness :
    clean_data T6 cfg6 = .ok (([[[1], [2]], [[2], [3]]], [3, 4])
        :: [([[[3], [4]], [[4], [5]]], [5, 6])])
    ∧ (List.scanl writerAppend (writerInit ([[[1], [2]], [[2], [3]]], [3, 4]))
        [([[[3], [4]], [[4], [5]]], [5, 6])]).all
          (fun st => st.rcount_x == st.rcount_y) = true :=
  ⟨by decide, writer_running_counts_equal T6 cfg6 ([[[1], [2]], [[2], [3]]], [3, 4])
    [([[[3], [4]], [[4], [5]]], [5, 6])] (by decide)⟩

end EtlKeras
